import Mathlib

/-!
Verification of the Sudoku core (`src/sudoku.ts`).

The grid model is a shallow embedding of the TypeScript code:
a cell is `number | null`, modelled as `Option Nat` (`none` = `null`);
a grid is `Cell[][]`, modelled as `List (List Cell)`.  JavaScript's
optional-chaining access `grid[row]?.[col]`, which yields `undefined`
out of range, is modelled by `cellAt : Grid → Nat → Nat → Option Cell`
(`none` = `undefined`, `some none` = `null`, `some (some n)` = digit).

Recursive search (`solveInPlace`, the `backtrack` closure inside
`countSolutions`) is embedded with an explicit fuel argument; the
recursion depth of the source is bounded by the number of empty cells
(at most 81), and the top-level wrappers pass fuel 81, so the fuel
never runs out on the cells the source actually visits.
-/

namespace Sudoku

/-- A cell holds a digit or is empty (`null`). -/
abbrev Cell : Type := Option Nat

/-- A grid is a row-major list of rows of cells, as in the source. -/
abbrev Grid : Type := List (List Cell)

/-- The digits 1..9, in the ascending order the source loops try them. -/
def digits : List Nat := [1, 2, 3, 4, 5, 6, 7, 8, 9]

/-- JavaScript `grid[r]?.[c]`: `none` models `undefined` (index out of
range), `some none` models `null`, `some (some n)` models the digit `n`. -/
def cellAt (g : Grid) (r c : Nat) : Option Cell :=
  (g[r]?).bind fun row => row[c]?

/-- Embedding of `isValidPlacement` (sudoku.ts lines 18-39): scans the
row, the column and the 3x3 box, ignoring the queried cell itself. -/
def isValidPlacement (g : Grid) (row col num : Nat) : Bool :=
  ((List.range 9).all fun c =>
    !(decide (c ≠ col) && decide (cellAt g row c = some (some num)))) &&
  ((List.range 9).all fun r =>
    !(decide (r ≠ row) && decide (cellAt g r col = some (some num)))) &&
  ((List.range 3).all fun i => (List.range 3).all fun j =>
    !(decide (row / 3 * 3 + i ≠ row ∨ col / 3 * 3 + j ≠ col) &&
      decide (cellAt g (row / 3 * 3 + i) (col / 3 * 3 + j) = some (some num))))

/-- Embedding of `getViolations` (lines 42-55): the coordinates of every
filled cell whose digit fails `isValidPlacement`.  The source collects
strings `"r,c"` in a `Set`; we collect the pairs `(r, c)` in row-major
order, which carries the same information. -/
def getViolations (g : Grid) : List (Nat × Nat) :=
  (List.range 9).flatMap fun r =>
    ((List.range 9).filter fun c =>
      match cellAt g r c with
      | some (some n) => !isValidPlacement g r c n
      | _ => false).map fun c => (r, c)

/-- Embedding of `isSolved` (lines 58-67): every cell is filled and every
filled cell passes `isValidPlacement`. -/
def isSolved (g : Grid) : Bool :=
  (List.range 9).all fun r => (List.range 9).all fun c =>
    match cellAt g r c with
    | some (some n) => isValidPlacement g r c n
    | _ => false

/-- Embedding of `getCandidates` (lines 70-79): empty list unless the cell
is literally `null` (so also for out-of-range coordinates, where the
access yields `undefined ≠ null`), else the valid digits in ascending
order. -/
def getCandidates (g : Grid) (row col : Nat) : List Nat :=
  if cellAt g row col ≠ some none then []
  else digits.filter fun n => isValidPlacement g row col n

/-- Embedding of `cloneGrid` (line 13). -/
def cloneGrid (g : Grid) : Grid :=
  g.map fun row => row.map fun c => c

/-- Writing a cell: `const rowArr = grid[row]; if (rowArr) rowArr[col] = v`.
Out-of-range writes are silently dropped, as in the source. -/
def setCell (g : Grid) (r c : Nat) (v : Cell) : Grid :=
  match g[r]? with
  | some row => g.set r (row.set c v)
  | none => g

/-- The first empty cell in row-major order, as scanned by `solveInPlace`
and by `backtrack` inside `countSolutions`. -/
def firstEmpty (g : Grid) : Option (Nat × Nat) :=
  (List.range 9).findSome? fun r =>
    ((List.range 9).find? fun c => cellAt g r c == some none).map fun c => (r, c)

/-- The 81 coordinates in row-major scan order. -/
def scanPairs : List (Nat × Nat) :=
  (List.range 9).flatMap fun r => (List.range 9).map fun c => (r, c)

/-- Number of empty cells among the 81 scanned coordinates. -/
def emptyCount (g : Grid) : Nat :=
  scanPairs.countP fun p => cellAt g p.1 p.2 == some none

/-- Embedding of `solveInPlace` (lines 100-120) as a pure function: at the
first empty cell try digits 1..9 in order and return the first grid the
recursion completes; `none` when every digit fails.  `fuel` bounds the
recursion depth; one empty cell is filled per level, so fuel 81 is enough
for every grid. -/
def solveAux : Nat → Grid → Option Grid
  | 0, g =>
    match firstEmpty g with
    | none => some g
    | some _ => none
  | f + 1, g =>
    match firstEmpty g with
    | none => some g
    | some (r, c) =>
      digits.findSome? fun n =>
        if isValidPlacement g r c n then solveAux f (setCell g r c (some n)) else none

/-- Embedding of `solve` (lines 91-97): work on a clone, `none` models the
`null` result for unsolvable grids. -/
def solve (g : Grid) : Option Grid := solveAux 81 (cloneGrid g)

/-- The full list of completions the backtracking search of the source
visits, in visiting order: same recursion as `solveAux`, collecting every
fully-filled state instead of stopping at the first. -/
def solutionsAux : Nat → Grid → List Grid
  | 0, g =>
    match firstEmpty g with
    | none => [g]
    | some _ => []
  | f + 1, g =>
    match firstEmpty g with
    | none => [g]
    | some (r, c) =>
      digits.flatMap fun n =>
        if isValidPlacement g r c n then solutionsAux f (setCell g r c (some n)) else []

/-- Embedding of the `backtrack` closure of `countSolutions` (lines
127-148): `count` is the mutable counter, a fully-filled state increments
it, and as soon as it reaches `cap` every enclosing digit loop stops (the
source returns `true` up the recursion; here the fold skips the remaining
digits once `cnt ≥ cap`). -/
def csAux : Nat → Grid → Nat → Nat → Nat
  | 0, g, _, count =>
    match firstEmpty g with
    | none => count + 1
    | some _ => count
  | f + 1, g, cap, count =>
    match firstEmpty g with
    | none => count + 1
    | some (r, c) =>
      digits.foldl (fun cnt n =>
        if cap ≤ cnt then cnt
        else if isValidPlacement g r c n then csAux f (setCell g r c (some n)) cap cnt
        else cnt) count

/-- Embedding of `countSolutions` (lines 123-152). -/
def countSolutions (g : Grid) (cap : Nat) : Nat :=
  csAux 81 (cloneGrid g) cap 0

/-- A 9x9 grid: nine rows of nine cells, the shape every grid built by the
source has. -/
def wellFormedB (g : Grid) : Bool :=
  (g.length == 9) && g.all fun row => row.length == 9

/-- Every filled cell among the 81 coordinates holds a digit 1..9 (the
`Cell = number(1-9) | null` data model of the source). -/
def digitsOkB (g : Grid) : Bool :=
  (List.range 9).all fun r => (List.range 9).all fun c =>
    match cellAt g r c with
    | some (some n) => decide (n ∈ digits)
    | _ => true

/-- Grid `s` agrees with `g` on every cell `g` has filled. -/
def subgrid (g s : Grid) : Prop :=
  ∀ r c n, r < 9 → c < 9 → cellAt g r c = some (some n) → cellAt s r c = some (some n)

/-- The completions the backtracking search of the source can reach from
`g`: full 9x9 grids extending `g` in which every originally-empty cell
holds a digit 1..9 that `isValidPlacement` accepts in the final grid. -/
def CodeSolution (g s : Grid) : Prop :=
  wellFormedB s = true ∧ subgrid g s ∧
  ∀ r c, r < 9 → c < 9 → cellAt g r c = some none →
    ∃ n, n ∈ digits ∧ cellAt s r c = some (some n) ∧ isValidPlacement s r c n = true

/-- A solution of `g` in the sense of the specification: a full, valid
(`isSolved`) digit-1..9 grid extending `g`. -/
def SolvedExtension (g s : Grid) : Prop :=
  wellFormedB s = true ∧ subgrid g s ∧ digitsOkB s = true ∧ isSolved s = true

/-- Embedding of `applyNakedSingles` (lines 178-193): scan the 81 cells in
row-major order, filling every empty cell that has exactly one candidate;
fills made earlier in the same pass are visible to later cells, as in the
in-place source.  The Bool is the `changed` flag. -/
def applyNakedSingles (g : Grid) : Grid × Bool :=
  (List.range 9).foldl (fun acc r =>
    (List.range 9).foldl (fun acc c =>
      if cellAt acc.1 r c = some none then
        match getCandidates acc.1 r c with
        | [d] => (setCell acc.1 r c (some d), true)
        | _ => acc
      else acc) acc) (g, false)

/-- Row phase of `applyHiddenSingles` (lines 199-215). -/
def hiddenRows (gc : Grid × Bool) : Grid × Bool :=
  (List.range 9).foldl (fun acc row =>
    digits.foldl (fun acc num =>
      match (List.range 9).filter (fun col =>
          decide (cellAt acc.1 row col = some none) &&
          isValidPlacement acc.1 row col num) with
      | [col] => (setCell acc.1 row col (some num), true)
      | _ => acc) acc) gc

/-- Column phase of `applyHiddenSingles` (lines 218-233). -/
def hiddenCols (gc : Grid × Bool) : Grid × Bool :=
  (List.range 9).foldl (fun acc col =>
    digits.foldl (fun acc num =>
      match (List.range 9).filter (fun row =>
          decide (cellAt acc.1 row col = some none) &&
          isValidPlacement acc.1 row col num) with
      | [row] => (setCell acc.1 row col (some num), true)
      | _ => acc) acc) gc

/-- Box phase of `applyHiddenSingles` (lines 236-257); positions are
collected in row-major order inside each box, as in the source. -/
def hiddenBoxes (gc : Grid × Bool) : Grid × Bool :=
  (List.range 3).foldl (fun acc boxRow =>
    (List.range 3).foldl (fun acc boxCol =>
      digits.foldl (fun acc num =>
        match ((List.range 3).flatMap fun r =>
            (List.range 3).map fun c => (boxRow * 3 + r, boxCol * 3 + c)).filter
            (fun p => decide (cellAt acc.1 p.1 p.2 = some none) &&
              isValidPlacement acc.1 p.1 p.2 num) with
        | [p] => (setCell acc.1 p.1 p.2 (some num), true)
        | _ => acc) acc) acc) gc

/-- Embedding of `applyHiddenSingles` (lines 196-260): rows, then columns,
then boxes, sharing one `changed` flag. -/
def applyHiddenSingles (g : Grid) : Grid × Bool :=
  hiddenBoxes (hiddenCols (hiddenRows (g, false)))

/-- One round of the speculative-deduction loop inside `requiresLookahead`
(line 309): `applyNakedSingles(testGrid) || applyHiddenSingles(testGrid)`
with JavaScript short-circuit, so hidden singles run only when naked
singles made no change. -/
def testStep (g : Grid) : Grid × Bool :=
  match applyNakedSingles g with
  | (g2, true) => (g2, true)
  | (g2, false) => applyHiddenSingles g2

/-- The contradiction scan of `requiresLookahead` (lines 311-317): some
empty cell has no candidates. -/
def hasZeroCandidateCell (g : Grid) : Bool :=
  (List.range 9).any fun r => (List.range 9).any fun c =>
    decide (cellAt g r c = some none) && decide (getCandidates g r c = [])

/-- The `while (testProgress && !contradiction)` loop of
`requiresLookahead` (lines 307-318), returning the `contradiction` flag.
Each round that reports progress fills at least one of the 81 cells, so
the loop of the source runs at most 82 rounds and fuel 82 is exact. -/
def contraLoop : Nat → Grid → Bool
  | 0, _ => false
  | f + 1, g =>
    if hasZeroCandidateCell (testStep g).1 then true
    else if (testStep g).2 then contraLoop f (testStep g).1
    else false

/-- Lines 300-318 of `requiresLookahead`: place `cand` in a scratch copy,
run basic deduction, and report whether a contradiction appears. -/
def leadsToContradiction (g : Grid) (row col cand : Nat) : Bool :=
  contraLoop 82 (setCell (cloneGrid g) row col (some cand))

/-- Helper for `cellDecision`: the candidate-list dispatch of lines
299-328.  On a two-element candidate list `[a, b]` the code tries `a`
first; the first candidate that leads to a contradiction makes the code
force the *other* one; on any other list shape nothing happens. -/
def decideTwo (g : Grid) (row col : Nat) : List Nat → Option Nat
  | [a, b] =>
    if leadsToContradiction g row col a then some b
    else if leadsToContradiction g row col b then some a
    else none
  | _ => none

/-- The per-cell inference of the depth-1 lookahead step (lines 297-329):
for an empty cell with exactly two candidates, try them in ascending
order; the first one that leads to a contradiction makes the code force
the *other* candidate; `none` when no candidate contradicts (or the cell
is not a two-candidate empty cell). -/
def cellDecision (g : Grid) (row col : Nat) : Option Nat :=
  if cellAt g row col = some none then decideTwo g row col (getCandidates g row col)
  else none

/-- Helper for `lookaheadPass`: apply the first inference found, if any. -/
def applyFirst (g : Grid) : Option ((Nat × Nat) × Nat) → Grid × Bool
  | some (p, v) => (setCell g p.1 p.2 (some v), true)
  | none => (g, false)

/-- One pass of the depth-1 lookahead step (lines 292-335): scan the cells
in row-major order, apply the first inference found to the working grid
and stop (the source `break`s out of both loops); the Bool is the
`progress` flag. -/
def lookaheadPass (g : Grid) : Grid × Bool :=
  applyFirst g
    (scanPairs.findSome? fun p => (cellDecision g p.1 p.2).map fun v => (p, v))

/-! Concrete grids used as witnesses and counterexamples.  Each one was
checked cell by cell against the TypeScript semantics. -/

/-- The valid solved grid of the specification scenario,
`grid[r][c] = ((r*3 + r/3 + c) % 9) + 1`. -/
def canonGrid : Grid :=
  (List.range 9).map fun r => (List.range 9).map fun c =>
    some ((r * 3 + r / 3 + c) % 9 + 1)

/-- The canonical solved grid with cell (0,0) cleared: one empty cell,
no violations, a unique completion. -/
def oneHole : Grid := setCell canonGrid 0 0 none

/-- A type-correct grid every cell of which holds 5: fully filled (so the
backtracking of `countSolutions` counts it as one reached state) but full
of violations, hence without any solved extension. -/
def allFives : Grid := List.replicate 9 (List.replicate 9 (some 5))

/-- The canonical grid with (0,0) overwritten by 2: a fully filled grid in
which cells (0,0) and (0,1) of row 0 both hold 2. -/
def rowDupFull : Grid := setCell canonGrid 0 0 (some 2)

/-- The canonical grid with (0,1) overwritten by 5 (duplicating the 5 of
(0,4) in row 0) and (1,1) cleared: the empty cell (1,1) needs a 5 by its
row but the duplicated 5 above it blocks the column, so it has no
candidates. -/
def dupDead : Grid := setCell (setCell canonGrid 0 1 (some 5)) 1 1 none

/-- An otherwise-empty grid with digit 5 at (0,0) (specification
scenario for `isValidPlacement`). -/
def fiveAtOrigin : Grid :=
  setCell ((List.range 9).map fun _ => (List.range 9).map fun _ => none) 0 0 (some 5)

/-- The all-empty 9x9 grid. -/
def emptyGrid : Grid :=
  (List.range 9).map fun _ => (List.range 9).map fun _ => none

/-- A working grid for the lookahead step: stable under naked and hidden
singles, cell (8,8) is empty with no candidates, and the four empty cells
(0,0), (0,1), (3,0), (3,1) each have exactly the two candidates 8 and 9.
Placing either candidate at (0,0) leads to a contradiction (the dead cell
(8,8) survives propagation), so this exhibits the both-candidates-
contradict case of the lookahead step. -/
def lookGrid : Grid :=
  [[none,   none,   some 1, some 2, some 3, some 4, some 5, some 6, some 7],
   [some 2, some 3, some 4, some 5, some 6, some 7, some 1, some 2, some 3],
   [some 3, some 4, some 5, some 6, some 7, some 1, some 2, some 3, some 4],
   [none,   none,   some 1, some 2, some 3, some 4, some 5, some 6, some 7],
   [some 4, some 5, some 6, some 7, some 1, some 2, some 3, some 4, some 9],
   [some 5, some 6, some 7, some 1, some 2, some 3, some 4, some 5, some 6],
   [some 6, some 7, some 1, some 2, some 3, some 4, some 5, some 6, some 7],
   [some 7, some 1, some 2, some 3, some 4, some 5, some 6, some 7, some 1],
   [some 1, some 2, some 3, some 4, some 5, some 6, some 7, some 8, none]]

/-- `lookGrid` after placing candidate 8 at (0,0) (the scratch copy the
lookahead builds). -/
def lookA0 : Grid :=
  [[some 8, none, some 1, some 2, some 3, some 4, some 5, some 6, some 7],
   [some 2, some 3, some 4, some 5, some 6, some 7, some 1, some 2, some 3],
   [some 3, some 4, some 5, some 6, some 7, some 1, some 2, some 3, some 4],
   [none, none, some 1, some 2, some 3, some 4, some 5, some 6, some 7],
   [some 4, some 5, some 6, some 7, some 1, some 2, some 3, some 4, some 9],
   [some 5, some 6, some 7, some 1, some 2, some 3, some 4, some 5, some 6],
   [some 6, some 7, some 1, some 2, some 3, some 4, some 5, some 6, some 7],
   [some 7, some 1, some 2, some 3, some 4, some 5, some 6, some 7, some 1],
   [some 1, some 2, some 3, some 4, some 5, some 6, some 7, some 8, none]]

/-- `lookA0` after one pass of naked singles (cells (0,1), (3,0), (3,1)
get filled); the dead cell (8,8) is still empty. -/
def lookA1 : Grid :=
  [[some 8, some 9, some 1, some 2, some 3, some 4, some 5, some 6, some 7],
   [some 2, some 3, some 4, some 5, some 6, some 7, some 1, some 2, some 3],
   [some 3, some 4, some 5, some 6, some 7, some 1, some 2, some 3, some 4],
   [some 9, some 8, some 1, some 2, some 3, some 4, some 5, some 6, some 7],
   [some 4, some 5, some 6, some 7, some 1, some 2, some 3, some 4, some 9],
   [some 5, some 6, some 7, some 1, some 2, some 3, some 4, some 5, some 6],
   [some 6, some 7, some 1, some 2, some 3, some 4, some 5, some 6, some 7],
   [some 7, some 1, some 2, some 3, some 4, some 5, some 6, some 7, some 1],
   [some 1, some 2, some 3, some 4, some 5, some 6, some 7, some 8, none]]

/-- `lookGrid` after placing candidate 9 at (0,0). -/
def lookB0 : Grid :=
  [[some 9, none, some 1, some 2, some 3, some 4, some 5, some 6, some 7],
   [some 2, some 3, some 4, some 5, some 6, some 7, some 1, some 2, some 3],
   [some 3, some 4, some 5, some 6, some 7, some 1, some 2, some 3, some 4],
   [none, none, some 1, some 2, some 3, some 4, some 5, some 6, some 7],
   [some 4, some 5, some 6, some 7, some 1, some 2, some 3, some 4, some 9],
   [some 5, some 6, some 7, some 1, some 2, some 3, some 4, some 5, some 6],
   [some 6, some 7, some 1, some 2, some 3, some 4, some 5, some 6, some 7],
   [some 7, some 1, some 2, some 3, some 4, some 5, some 6, some 7, some 1],
   [some 1, some 2, some 3, some 4, some 5, some 6, some 7, some 8, none]]

/-- `lookB0` after one pass of naked singles. -/
def lookB1 : Grid :=
  [[some 9, some 8, some 1, some 2, some 3, some 4, some 5, some 6, some 7],
   [some 2, some 3, some 4, some 5, some 6, some 7, some 1, some 2, some 3],
   [some 3, some 4, some 5, some 6, some 7, some 1, some 2, some 3, some 4],
   [some 8, some 9, some 1, some 2, some 3, some 4, some 5, some 6, some 7],
   [some 4, some 5, some 6, some 7, some 1, some 2, some 3, some 4, some 9],
   [some 5, some 6, some 7, some 1, some 2, some 3, some 4, some 5, some 6],
   [some 6, some 7, some 1, some 2, some 3, some 4, some 5, some 6, some 7],
   [some 7, some 1, some 2, some 3, some 4, some 5, some 6, some 7, some 1],
   [some 1, some 2, some 3, some 4, some 5, some 6, some 7, some 8, none]]


/-! Basic facts about the grid model. -/

theorem wellFormed_length {g : Grid} (h : wellFormedB g = true) : g.length = 9 := by
  have := (Bool.and_eq_true _ _).mp h
  simpa using this.1

theorem wellFormed_row_length {g : Grid} (h : wellFormedB g = true) {row : List Cell}
    (hrow : row ∈ g) : row.length = 9 := by
  have := (Bool.and_eq_true _ _).mp h
  have h2 := List.all_eq_true.mp this.2 row hrow
  simpa using h2

theorem cellAt_out_of_range {g : Grid} (hg : wellFormedB g = true) {r c : Nat}
    (h : 9 ≤ r ∨ 9 ≤ c) : cellAt g r c = none := by
  rcases h with h | h
  · have : g[r]? = none := List.getElem?_eq_none (by rw [wellFormed_length hg]; exact h)
    simp [cellAt, this]
  · rcases hrow : g[r]? with _ | row
    · simp [cellAt, hrow]
    · have hmem : row ∈ g := List.getElem?_mem hrow
      have : row[c]? = none :=
        List.getElem?_eq_none (by rw [wellFormed_row_length hg hmem]; exact h)
      simp [cellAt, hrow, this]

/-- Claim C10: for any 9x9 grid and any row or column index outside 0..8,
`getCandidates` returns the empty list (and, being a total function, does
not fail): the out-of-range access yields `undefined` via optional
chaining, which the `!== null` guard treats like a filled cell. -/
theorem getCandidates_out_of_range (g : Grid) (r c : Nat) (hg : wellFormedB g = true)
    (h : 9 ≤ r ∨ 9 ≤ c) : getCandidates g r c = [] := by
  have hcell := cellAt_out_of_range hg h
  simp [getCandidates, hcell]

/-- Witness for claim C10 at a concrete input: the empty grid queried at
row 12 (and at column 10). -/
theorem getCandidates_out_of_range_witness :
    getCandidates emptyGrid 12 3 = [] ∧ getCandidates emptyGrid 0 10 = [] :=
  ⟨getCandidates_out_of_range emptyGrid 12 3 (by decide) (Or.inl (by decide)),
   getCandidates_out_of_range emptyGrid 0 10 (by decide) (Or.inr (by decide))⟩

theorem scan_item (P Q : Prop) [Decidable P] [Decidable Q] :
    (!(decide P && decide Q)) = true ↔ ¬(P ∧ Q) := by
  rcases Decidable.em P with hp | hp <;> rcases Decidable.em Q with hq | hq <;>
    simp [hp, hq]

/-- Characterisation of `isValidPlacement` as a statement about peers,
used throughout the development. -/
theorem validPlacement_chr (g : Grid) (row col num : Nat)
    (hr : row < 9) (hc : col < 9) :
    isValidPlacement g row col num = true ↔
      ∀ r c, r < 9 → c < 9 → (r, c) ≠ (row, col) →
        (r = row ∨ c = col ∨ (r / 3 = row / 3 ∧ c / 3 = col / 3)) →
        cellAt g r c ≠ some (some num) := by
  rw [isValidPlacement]
  simp only [Bool.and_eq_true, List.all_eq_true, List.mem_range, scan_item, not_and]
  constructor
  · rintro ⟨⟨hrow, hcol⟩, hbox⟩ r c hr9 hc9 hne hpeer
    rcases hpeer with rfl | rfl | ⟨hb1, hb2⟩
    · have hcne : c ≠ col := fun h => hne (by rw [h])
      exact hrow c hc9 hcne
    · by_cases hrr : r = row
      · exact absurd (by rw [hrr]) hne
      · exact hcol r hr9 hrr
    · have h1 : r - row / 3 * 3 < 3 := by omega
      have h2 : c - col / 3 * 3 < 3 := by omega
      have hb := hbox (r - row / 3 * 3) h1 (c - col / 3 * 3) h2
      have hi : row / 3 * 3 + (r - row / 3 * 3) = r := by omega
      have hj : col / 3 * 3 + (c - col / 3 * 3) = c := by omega
      rw [hi, hj] at hb
      apply hb
      by_cases hrr : r = row
      · subst hrr
        exact Or.inr fun h => hne (by rw [h])
      · exact Or.inl hrr
  · intro h
    refine ⟨⟨fun c hc9 hcc => ?_, fun r hr9 hrr => ?_⟩, fun i hi j hj hd => ?_⟩
    · exact h row c hr hc9 (fun he => hcc (congrArg Prod.snd he)) (Or.inl rfl)
    · exact h r col hr9 hc (fun he => hrr (congrArg Prod.fst he)) (Or.inr (Or.inl rfl))
    · refine h (row / 3 * 3 + i) (col / 3 * 3 + j) (by omega) (by omega) ?_
        (Or.inr (Or.inr ⟨by omega, by omega⟩))
      intro he
      rcases hd with hd | hd
      · exact hd (congrArg Prod.fst he)
      · exact hd (congrArg Prod.snd he)

/-- Claim C9: `isValidPlacement g row col num` is true exactly when no
cell other than `(row, col)` in the same row, column or 3x3 box holds
`num`; the content of `(row, col)` itself is ignored (a cell `(r, c)`
with `(r, c) ≠ (row, col)` is a peer when `r = row`, `c = col`, or both
coordinates fall in the same band of three). -/
theorem isValidPlacement_eq_true_iff (g : Grid) (row col num : Nat)
    (hr : row < 9) (hc : col < 9) :
    isValidPlacement g row col num = true ↔
      ∀ r c, r < 9 → c < 9 → (r, c) ≠ (row, col) →
        (r = row ∨ c = col ∨ (r / 3 = row / 3 ∧ c / 3 = col / 3)) →
        cellAt g r c ≠ some (some num) :=
  validPlacement_chr g row col num hr hc

/-- Witness for claim C9: on an otherwise-empty grid holding 5 at (0,0),
querying (0,0) with digit 5 returns true (the cell's own content is
ignored) and querying (0,1) with digit 5 returns false; the
characterisation instantiated at (0,0) yields that no peer of (0,0)
holds a 5. -/
theorem isValidPlacement_eq_true_iff_witness :
    isValidPlacement fiveAtOrigin 0 0 5 = true ∧
    isValidPlacement fiveAtOrigin 0 1 5 = false ∧
    (∀ r c, r < 9 → c < 9 → (r, c) ≠ (0, 0) →
      (r = 0 ∨ c = 0 ∨ (r / 3 = 0 ∧ c / 3 = 0)) →
      cellAt fiveAtOrigin r c ≠ some (some 5)) :=
  ⟨by decide, by decide,
   (isValidPlacement_eq_true_iff fiveAtOrigin 0 0 5 (by decide) (by decide)).mp (by decide)⟩


/-! Infrastructure: well-formedness, cell updates, the first-empty scan
and the empty-cell count. -/

theorem wellFormed_iff (g : Grid) :
    wellFormedB g = true ↔
      g.length = 9 ∧ ∀ r, r < 9 → ∃ row, g[r]? = some row ∧ row.length = 9 := by
  constructor
  · intro h
    refine ⟨wellFormed_length h, fun r hr => ?_⟩
    have hlen : r < g.length := by rw [wellFormed_length h]; exact hr
    exact ⟨g[r], List.getElem?_eq_getElem hlen, wellFormed_row_length h (g.getElem_mem hlen)⟩
  · rintro ⟨hlen, hrows⟩
    rw [wellFormedB, Bool.and_eq_true]
    refine ⟨by simp [hlen], List.all_eq_true.mpr fun row hrow => ?_⟩
    obtain ⟨i, hi, hget⟩ := List.mem_iff_getElem.mp hrow
    obtain ⟨row2, hr2, hlen2⟩ := hrows i (by omega)
    rw [List.getElem?_eq_getElem hi] at hr2
    simp only [Option.some.injEq] at hr2
    simp [← hget, hr2, hlen2]

theorem cellAt_isSome_of_wf {g : Grid} (hwf : wellFormedB g = true) {r c : Nat}
    (hr : r < 9) (hc : c < 9) : ∃ cell, cellAt g r c = some cell := by
  obtain ⟨-, hrows⟩ := (wellFormed_iff g).mp hwf
  obtain ⟨row, hrow, hlen⟩ := hrows r hr
  refine ⟨row.get ⟨c, by omega⟩, ?_⟩
  rw [cellAt, hrow]
  simp only [Option.bind_eq_bind, Option.some_bind, List.get_eq_getElem]
  exact List.getElem?_eq_getElem (by omega)

theorem cellAt_setCell_same {g : Grid} (hwf : wellFormedB g = true) {r c : Nat}
    (hr : r < 9) (hc : c < 9) (v : Cell) : cellAt (setCell g r c v) r c = some v := by
  obtain ⟨hlen, hrows⟩ := (wellFormed_iff g).mp hwf
  obtain ⟨row, hrow, hrlen⟩ := hrows r hr
  rw [setCell, hrow, cellAt]
  rw [List.getElem?_set_self (by omega)]
  simp only [Option.bind_eq_bind, Option.some_bind]
  exact List.getElem?_set_self (by omega)

theorem cellAt_setCell_other (g : Grid) (r c : Nat) (v : Cell) (x y : Nat)
    (hne : (x, y) ≠ (r, c)) : cellAt (setCell g r c v) x y = cellAt g x y := by
  rcases hrow : g[r]? with _ | row
  · rw [setCell, hrow]
  · rw [setCell, hrow]
    by_cases hx : x = r
    · subst hx
      have hy : y ≠ c := fun h => hne (by rw [h])
      have hxl : x < g.length := (List.getElem?_eq_some_iff.mp hrow).1
      rw [cellAt, cellAt, List.getElem?_set_self hxl, hrow]
      simp only [Option.bind_eq_bind, Option.some_bind]
      exact List.getElem?_set_ne (fun h => hy h.symm)
    · rw [cellAt, cellAt, List.getElem?_set_ne (fun h => hx h.symm)]

theorem wellFormed_setCell {g : Grid} (hwf : wellFormedB g = true) (r c : Nat) (v : Cell) :
    wellFormedB (setCell g r c v) = true := by
  obtain ⟨hlen, hrows⟩ := (wellFormed_iff g).mp hwf
  rcases hrow : g[r]? with _ | row
  · rw [setCell, hrow]; exact hwf
  · rw [setCell, hrow]
    refine (wellFormed_iff _).mpr ⟨by simp [hlen], fun i hi => ?_⟩
    by_cases hir : i = r
    · subst hir
      have hil : i < g.length := (List.getElem?_eq_some_iff.mp hrow).1
      refine ⟨row.set c v, List.getElem?_set_self hil, ?_⟩
      obtain ⟨row2, hr2, hlen2⟩ := hrows i hi
      rw [hrow] at hr2
      simp only [Option.some.injEq] at hr2
      simp [hr2, hlen2]
    · obtain ⟨row2, hr2, hlen2⟩ := hrows i hi
      exact ⟨row2, by rw [List.getElem?_set_ne (fun h => hir h.symm)]; exact hr2, hlen2⟩

theorem firstEmpty_some {g : Grid} {r c : Nat} (h : firstEmpty g = some (r, c)) :
    r < 9 ∧ c < 9 ∧ cellAt g r c = some none := by
  obtain ⟨a, ha, hfa⟩ := List.exists_of_findSome?_eq_some h
  obtain ⟨c2, hfind, hpair⟩ := Option.map_eq_some'.mp hfa
  have hra : a = r := congrArg Prod.fst hpair
  have hcc : c2 = c := congrArg Prod.snd hpair
  subst hra
  subst hcc
  have hc2 := List.find?_some hfind
  have hmem := List.mem_of_find?_eq_some hfind
  exact ⟨List.mem_range.mp ha, List.mem_range.mp hmem, by simpa using hc2⟩

theorem firstEmpty_none {g : Grid} (h : firstEmpty g = none) {r c : Nat}
    (hr : r < 9) (hc : c < 9) : cellAt g r c ≠ some none := by
  intro hcell
  have hall := List.findSome?_eq_none_iff.mp h r (List.mem_range.mpr hr)
  rcases hfind : (List.range 9).find? fun cc => cellAt g r cc == some none with _ | c2
  · have := List.find?_eq_none.mp hfind c (List.mem_range.mpr hc)
    exact this (by simp [hcell])
  · rw [hfind] at hall
    simp at hall

theorem mem_scanPairs (r c : Nat) : (r, c) ∈ scanPairs ↔ r < 9 ∧ c < 9 := by
  simp [scanPairs, List.mem_flatMap, List.mem_map, List.mem_range, Prod.mk.injEq]

theorem emptyCount_le (g : Grid) : emptyCount g ≤ 81 := by
  have h := List.countP_le_length (l := scanPairs)
    (p := fun p => cellAt g p.1 p.2 == some none)
  calc emptyCount g ≤ scanPairs.length := h
  _ = 81 := by decide

theorem countP_lt_of_mem {α : Type} (p q : α → Bool) :
    ∀ (l : List α), (∀ a ∈ l, q a = true → p a = true) →
    ∀ a ∈ l, p a = true → q a = false → l.countP q < l.countP p := by
  intro l
  induction l with
  | nil => intro _ a ha; cases ha
  | cons b l ih =>
    intro hpq a ha hp hq
    have hmono : l.countP q ≤ l.countP p :=
      List.countP_mono_left fun x hx h => hpq x (List.mem_cons_of_mem _ hx) h
    rcases List.mem_cons.mp ha with rfl | hal
    · rw [List.countP_cons, List.countP_cons, hq, hp]
      simp only [Bool.false_eq_true, if_false, if_pos]
      omega
    · have hlt := ih (fun x hx => hpq x (List.mem_cons_of_mem _ hx)) a hal hp hq
      rw [List.countP_cons, List.countP_cons]
      have hb : (if q b = true then 1 else 0) ≤ (if p b = true then 1 else 0) := by
        by_cases hqb : q b = true
        · simp [hqb, hpq b (List.mem_cons_self b l) hqb]
        · simp [hqb]
      omega

theorem emptyCount_setCell_lt {g : Grid} (hwf : wellFormedB g = true) {r c : Nat}
    (hr : r < 9) (hc : c < 9) (hcell : cellAt g r c = some none) (n : Nat) :
    emptyCount (setCell g r c (some n)) < emptyCount g := by
  apply countP_lt_of_mem
  · intro p hp hq
    by_cases hprc : p = (r, c)
    · subst hprc
      rw [cellAt_setCell_same hwf hr hc] at hq
      simp at hq
    · rw [cellAt_setCell_other g r c (some n) p.1 p.2 (by simpa using hprc)] at hq
      exact hq
  · exact (mem_scanPairs r c).mpr ⟨hr, hc⟩
  · simp [hcell]
  · rw [cellAt_setCell_same hwf hr hc]
    simp


theorem cloneGrid_eq (g : Grid) : cloneGrid g = g := by
  rw [cloneGrid]
  have : ∀ row : List Cell, (row.map fun c => c) = row := fun row => List.map_id' row
  simp [this]

theorem grid_ext {g s : Grid} (hg : wellFormedB g = true) (hs : wellFormedB s = true)
    (h : ∀ r c, r < 9 → c < 9 → cellAt g r c = cellAt s r c) : g = s := by
  obtain ⟨hgl, hgr⟩ := (wellFormed_iff g).mp hg
  obtain ⟨hsl, hsr⟩ := (wellFormed_iff s).mp hs
  apply List.ext_getElem?
  intro r
  by_cases hr : r < 9
  · obtain ⟨rowg, hrowg, hlg⟩ := hgr r hr
    obtain ⟨rows, hrows, hls⟩ := hsr r hr
    rw [hrowg, hrows]
    congr 1
    apply List.ext_getElem?
    intro c
    by_cases hc : c < 9
    · have := h r c hr hc
      rw [cellAt, cellAt, hrowg, hrows] at this
      simpa using this
    · rw [List.getElem?_eq_none (by omega), List.getElem?_eq_none (by omega)]
  · rw [List.getElem?_eq_none (by omega), List.getElem?_eq_none (by omega)]

theorem mem_getCandidates {g : Grid} {row col n : Nat} :
    n ∈ getCandidates g row col ↔
      cellAt g row col = some none ∧ n ∈ digits ∧ isValidPlacement g row col n = true := by
  rw [getCandidates]
  by_cases h : cellAt g row col = some none
  · simp [h, List.mem_filter]
  · simp [h]

theorem isValidPlacement_antitone {g s : Grid} (hsub : subgrid g s) {r c n : Nat}
    (hr : r < 9) (hc : c < 9)
    (hs : isValidPlacement s r c n = true) : isValidPlacement g r c n = true := by
  rw [validPlacement_chr g r c n hr hc]
  rw [validPlacement_chr s r c n hr hc] at hs
  intro x y hx hy hne hpeer hcell
  exact hs x y hx hy hne hpeer (hsub x y n hx hy hcell)


/-! Soundness and completeness of the backtracking enumeration. -/

theorem peer_symm {r c x y : Nat}
    (h : x = r ∨ y = c ∨ (x / 3 = r / 3 ∧ y / 3 = c / 3)) :
    r = x ∨ c = y ∨ (r / 3 = x / 3 ∧ c / 3 = y / 3) := by
  rcases h with h | h | ⟨h1, h2⟩
  · exact Or.inl h.symm
  · exact Or.inr (Or.inl h.symm)
  · exact Or.inr (Or.inr ⟨h1.symm, h2.symm⟩)

theorem codeSolution_of_no_empty {g s : Grid} (hwf : wellFormedB g = true)
    (hnone : ∀ r c, r < 9 → c < 9 → cellAt g r c ≠ some none) :
    (CodeSolution g s ↔ s = g) := by
  constructor
  · rintro ⟨hwfs, hsub, -⟩
    refine (grid_ext hwfs hwf fun r c hr hc => ?_).symm ▸ rfl
    obtain ⟨cell, hcell⟩ := cellAt_isSome_of_wf hwf hr hc
    rcases cell with _ | m
    · exact absurd hcell (hnone r c hr hc)
    · rw [hcell, hsub r c m hr hc hcell]
  · rintro rfl
    exact ⟨hwf, fun r c n _ _ h => h, fun r c hr hc hcell => absurd hcell (hnone r c hr hc)⟩

theorem codeSolution_step_mp {g s : Grid} {r c : Nat} (hwf : wellFormedB g = true)
    (hr : r < 9) (hc : c < 9) (hcell : cellAt g r c = some none)
    (hcs : CodeSolution g s) :
    ∃ n, n ∈ digits ∧ isValidPlacement g r c n = true ∧
      CodeSolution (setCell g r c (some n)) s := by
  obtain ⟨hwfs, hsub, hemp⟩ := hcs
  obtain ⟨n, hnd, hsn, hsv⟩ := hemp r c hr hc hcell
  refine ⟨n, hnd, isValidPlacement_antitone hsub hr hc hsv, hwfs, ?_, ?_⟩
  · intro x y m hx hy hxy
    by_cases hprc : (x, y) = (r, c)
    · have hxr : x = r := congrArg Prod.fst hprc
      have hyc : y = c := congrArg Prod.snd hprc
      subst hxr; subst hyc
      rw [cellAt_setCell_same hwf hx hy] at hxy
      simp only [Option.some.injEq] at hxy
      exact hxy ▸ hsn
    · rw [cellAt_setCell_other g r c (some n) x y hprc] at hxy
      exact hsub x y m hx hy hxy
  · intro x y hx hy hxy
    have hprc : (x, y) ≠ (r, c) := by
      intro hp
      have hxr : x = r := congrArg Prod.fst hp
      have hyc : y = c := congrArg Prod.snd hp
      subst hxr; subst hyc
      rw [cellAt_setCell_same hwf hx hy] at hxy
      simp at hxy
    rw [cellAt_setCell_other g r c (some n) x y hprc] at hxy
    exact hemp x y hx hy hxy

theorem codeSolution_step_mpr {g s : Grid} {r c n : Nat} (hwf : wellFormedB g = true)
    (hr : r < 9) (hc : c < 9) (hcell : cellAt g r c = some none)
    (hnd : n ∈ digits) (hval : isValidPlacement g r c n = true)
    (hcs : CodeSolution (setCell g r c (some n)) s) : CodeSolution g s := by
  obtain ⟨hwfs, hsub, hemp⟩ := hcs
  have hwfg2 : wellFormedB (setCell g r c (some n)) = true :=
    wellFormed_setCell hwf r c (some n)
  have hsrc : cellAt s r c = some (some n) :=
    hsub r c n hr hc (cellAt_setCell_same hwf hr hc (some n))
  have hvalid_s : isValidPlacement s r c n = true := by
    rw [validPlacement_chr s r c n hr hc]
    intro x y hx hy hne hpeer hsxy
    obtain ⟨cell, hgxy⟩ := cellAt_isSome_of_wf hwf hx hy
    rcases cell with _ | m
    · -- the offending peer is empty in g, hence also in the updated grid
      have hg2 : cellAt (setCell g r c (some n)) x y = some none := by
        rw [cellAt_setCell_other g r c (some n) x y hne]; exact hgxy
      obtain ⟨m, hmd, hsm, hsv⟩ := hemp x y hx hy hg2
      rw [hsxy] at hsm
      simp only [Option.some.injEq] at hsm
      rw [← hsm] at hsv
      rw [validPlacement_chr s x y n hx hy] at hsv
      exact hsv r c hr hc (fun hp => hne hp.symm) (peer_symm hpeer) hsrc
    · -- the offending peer is filled in g with the digit n, contradicting hval
      have hg2 : cellAt (setCell g r c (some n)) x y = some (some m) := by
        rw [cellAt_setCell_other g r c (some n) x y hne]; exact hgxy
      have := hsub x y m hx hy hg2
      rw [hsxy] at this
      simp only [Option.some.injEq] at this
      rw [validPlacement_chr g r c n hr hc] at hval
      exact hval x y hx hy hne hpeer (by rw [hgxy, this])
  refine ⟨hwfs, ?_, ?_⟩
  · intro x y m hx hy hxy
    have hprc : (x, y) ≠ (r, c) := by
      intro hp
      have hxr : x = r := congrArg Prod.fst hp
      have hyc : y = c := congrArg Prod.snd hp
      subst hxr; subst hyc
      exact absurd (hcell.symm.trans hxy) (by simp)
    apply hsub x y m hx hy
    rw [cellAt_setCell_other g r c (some n) x y hprc]
    exact hxy
  · intro x y hx hy hxy
    by_cases hprc : (x, y) = (r, c)
    · have hxr : x = r := congrArg Prod.fst hprc
      have hyc : y = c := congrArg Prod.snd hprc
      subst hxr; subst hyc
      exact ⟨n, hnd, hsrc, hvalid_s⟩
    · apply hemp x y hx hy
      rw [cellAt_setCell_other g r c (some n) x y hprc]
      exact hxy


theorem no_empty_of_emptyCount_zero {g : Grid} (h : emptyCount g = 0) {r c : Nat}
    (hr : r < 9) (hc : c < 9) : cellAt g r c ≠ some none := by
  intro hcell
  have := List.countP_eq_zero.mp h (r, c) ((mem_scanPairs r c).mpr ⟨hr, hc⟩)
  simp [hcell] at this

theorem firstEmpty_none_of_no_empty {g : Grid}
    (h : ∀ r c, r < 9 → c < 9 → cellAt g r c ≠ some none) : firstEmpty g = none := by
  rcases hfe : firstEmpty g with _ | ⟨r, c⟩
  · rfl
  · obtain ⟨hr, hc, hcell⟩ := firstEmpty_some hfe
    exact absurd hcell (h r c hr hc)

/-- Soundness and completeness of the backtracking enumeration: with
enough fuel, the fully-filled states visited by the search from `g` are
exactly the `CodeSolution`s of `g`. -/
theorem solutionsAux_mem : ∀ (fuel : Nat) (g : Grid), wellFormedB g = true →
    emptyCount g ≤ fuel → ∀ s : Grid, (s ∈ solutionsAux fuel g ↔ CodeSolution g s) := by
  intro fuel
  induction fuel with
  | zero =>
    intro g hwf hfuel s
    have hzero : emptyCount g = 0 := Nat.le_zero.mp hfuel
    have hnone : ∀ r c, r < 9 → c < 9 → cellAt g r c ≠ some none :=
      fun r c hr hc => no_empty_of_emptyCount_zero hzero hr hc
    have hfe : firstEmpty g = none := firstEmpty_none_of_no_empty hnone
    have heq : solutionsAux 0 g = [g] := by rw [solutionsAux, hfe]
    rw [heq]
    simp only [List.mem_singleton]
    exact (codeSolution_of_no_empty hwf hnone).symm
  | succ f ih =>
    intro g hwf hfuel s
    rcases hfe : firstEmpty g with _ | ⟨r, c⟩
    · have hnone : ∀ r c, r < 9 → c < 9 → cellAt g r c ≠ some none :=
        fun r c hr hc => firstEmpty_none hfe hr hc
      have heq : solutionsAux (f + 1) g = [g] := by rw [solutionsAux, hfe]
      rw [heq]
      simp only [List.mem_singleton]
      exact (codeSolution_of_no_empty hwf hnone).symm
    · obtain ⟨hr, hc, hcell⟩ := firstEmpty_some hfe
      have heq : solutionsAux (f + 1) g = digits.flatMap fun n =>
          if isValidPlacement g r c n then solutionsAux f (setCell g r c (some n)) else [] := by
        rw [solutionsAux, hfe]
      rw [heq, List.mem_flatMap]
      constructor
      · rintro ⟨n, hnd, hmem⟩
        by_cases hv : isValidPlacement g r c n = true
        · rw [if_pos hv] at hmem
          have hwf2 := wellFormed_setCell hwf r c (some n)
          have hec : emptyCount (setCell g r c (some n)) ≤ f := by
            have := emptyCount_setCell_lt hwf hr hc hcell n
            omega
          have hcs2 := (ih (setCell g r c (some n)) hwf2 hec s).mp hmem
          exact codeSolution_step_mpr hwf hr hc hcell hnd hv hcs2
        · rw [if_neg hv] at hmem
          cases hmem
      · intro hcs
        obtain ⟨n, hnd, hval, hcs2⟩ := codeSolution_step_mp hwf hr hc hcell hcs
        refine ⟨n, hnd, ?_⟩
        rw [if_pos hval]
        have hwf2 := wellFormed_setCell hwf r c (some n)
        have hec : emptyCount (setCell g r c (some n)) ≤ f := by
          have := emptyCount_setCell_lt hwf hr hc hcell n
          omega
        exact (ih (setCell g r c (some n)) hwf2 hec s).mpr hcs2

/-- Any member of the enumeration holds digit `n` at the branch cell. -/
theorem solutionsAux_branch_digit {f : Nat} {g s : Grid} {r c n : Nat}
    (hwf : wellFormedB g = true) (hr : r < 9) (hc : c < 9)
    (hcell : cellAt g r c = some none) (hfuel : emptyCount g ≤ f + 1)
    (hmem : s ∈ solutionsAux f (setCell g r c (some n))) :
    cellAt s r c = some (some n) := by
  have hwf2 := wellFormed_setCell hwf r c (some n)
  have hec : emptyCount (setCell g r c (some n)) ≤ f := by
    have := emptyCount_setCell_lt hwf hr hc hcell n
    omega
  obtain ⟨-, hsub, -⟩ := (solutionsAux_mem f (setCell g r c (some n)) hwf2 hec s).mp hmem
  exact hsub r c n hr hc (cellAt_setCell_same hwf hr hc (some n))

/-- The enumeration never lists the same completion twice: the branches
at the first empty cell pin distinct digits into that cell. -/
theorem solutionsAux_nodup : ∀ (fuel : Nat) (g : Grid), wellFormedB g = true →
    emptyCount g ≤ fuel → (solutionsAux fuel g).Nodup := by
  intro fuel
  induction fuel with
  | zero =>
    intro g hwf hfuel
    have hzero : emptyCount g = 0 := Nat.le_zero.mp hfuel
    have hfe : firstEmpty g = none :=
      firstEmpty_none_of_no_empty fun r c hr hc => no_empty_of_emptyCount_zero hzero hr hc
    have heq : solutionsAux 0 g = [g] := by rw [solutionsAux, hfe]
    rw [heq]
    exact List.nodup_singleton g
  | succ f ih =>
    intro g hwf hfuel
    rcases hfe : firstEmpty g with _ | ⟨r, c⟩
    · have heq : solutionsAux (f + 1) g = [g] := by rw [solutionsAux, hfe]
      rw [heq]
      exact List.nodup_singleton g
    · obtain ⟨hr, hc, hcell⟩ := firstEmpty_some hfe
      have heq : solutionsAux (f + 1) g = digits.flatMap fun n =>
          if isValidPlacement g r c n then solutionsAux f (setCell g r c (some n)) else [] := by
        rw [solutionsAux, hfe]
      rw [heq]
      rw [List.nodup_flatMap]
      constructor
      · intro n _
        by_cases hv : isValidPlacement g r c n = true
        · rw [if_pos hv]
          have hwf2 := wellFormed_setCell hwf r c (some n)
          have hec : emptyCount (setCell g r c (some n)) ≤ f := by
            have := emptyCount_setCell_lt hwf hr hc hcell n
            omega
          exact ih (setCell g r c (some n)) hwf2 hec
        · rw [if_neg hv]
          exact List.nodup_nil
      · have hdig : digits.Nodup := by decide
        refine hdig.imp fun hab => ?_
        rename_i a b
        intro s hsa hsb
        simp only at hsa hsb
        by_cases hva : isValidPlacement g r c a = true
        · rw [if_pos hva] at hsa
          by_cases hvb : isValidPlacement g r c b = true
          · rw [if_pos hvb] at hsb
            have h1 := solutionsAux_branch_digit hwf hr hc hcell hfuel hsa
            have h2 := solutionsAux_branch_digit hwf hr hc hcell hfuel hsb
            rw [h1] at h2
            simp only [Option.some.injEq] at h2
            exact hab h2
          · rw [if_neg hvb] at hsb
            cases hsb
        · rw [if_neg hva] at hsa
          cases hsa


/-- `solveInPlace` returns exactly the first completion the enumeration
visits. -/
theorem solveAux_eq_head : ∀ (fuel : Nat) (g : Grid),
    solveAux fuel g = (solutionsAux fuel g).head? := by
  intro fuel
  induction fuel with
  | zero =>
    intro g
    rcases hfe : firstEmpty g with _ | ⟨r, c⟩
    · rw [solveAux, solutionsAux, hfe]
      rfl
    · rw [solveAux, solutionsAux, hfe]
      rfl
  | succ f ih =>
    intro g
    rcases hfe : firstEmpty g with _ | ⟨r, c⟩
    · rw [solveAux, solutionsAux, hfe]
      rfl
    · have h1 : solveAux (f + 1) g = digits.findSome? fun n =>
          if isValidPlacement g r c n then solveAux f (setCell g r c (some n)) else none := by
        rw [solveAux, hfe]
      have h2 : solutionsAux (f + 1) g = digits.flatMap fun n =>
          if isValidPlacement g r c n then solutionsAux f (setCell g r c (some n)) else [] := by
        rw [solutionsAux, hfe]
      rw [h1, h2, List.head?_flatMap]
      congr 1
      funext n
      by_cases hv : isValidPlacement g r c n = true
      · rw [if_pos hv, if_pos hv, ih]
      · rw [if_neg hv, if_neg hv]
        rfl

theorem foldl_min_accum (cap : Nat) (b : Nat → Nat) (st : Nat → Nat → Nat)
    (hst : ∀ cnt n, cnt < cap → st cnt n = min (cnt + b n) cap)
    (hskip : ∀ cnt n, cap ≤ cnt → st cnt n = cnt) :
    ∀ (ds : List Nat) (count : Nat), count ≤ cap →
      ds.foldl st count = min (count + (ds.map b).sum) cap := by
  intro ds
  induction ds with
  | nil =>
    intro count hcount
    simp only [List.foldl_nil, List.map_nil, List.sum_nil, Nat.add_zero]
    omega
  | cons n ds ih =>
    intro count hcount
    rw [List.foldl_cons, List.map_cons, List.sum_cons]
    by_cases hlt : count < cap
    · rw [hst count n hlt]
      have hle : min (count + b n) cap ≤ cap := Nat.min_le_right _ _
      rw [ih (min (count + b n) cap) hle]
      omega
    · have hge : cap ≤ count := by omega
      rw [hskip count n hge]
      have hfold : ∀ (l : List Nat) (k : Nat), cap ≤ k → l.foldl st k = k := by
        intro l
        induction l with
        | nil => intro k hk; rfl
        | cons m l ihl =>
          intro k hk
          rw [List.foldl_cons, hskip k m hk]
          exact ihl k hk
      rw [hfold ds count hge]
      omega

/-- The capped counter of `countSolutions` computes the number of
enumerated completions, clipped at the cap. -/
theorem csAux_min : ∀ (fuel : Nat) (g : Grid) (cap count : Nat), count < cap →
    csAux fuel g cap count = min (count + (solutionsAux fuel g).length) cap := by
  intro fuel
  induction fuel with
  | zero =>
    intro g cap count hcount
    rcases hfe : firstEmpty g with _ | ⟨r, c⟩
    · rw [csAux, solutionsAux, hfe]
      simp only [List.length_singleton]
      omega
    · rw [csAux, solutionsAux, hfe]
      simp only [List.length_nil, Nat.add_zero]
      omega
  | succ f ih =>
    intro g cap count hcount
    rcases hfe : firstEmpty g with _ | ⟨r, c⟩
    · rw [csAux, solutionsAux, hfe]
      simp only [List.length_singleton]
      omega
    · have h1 : csAux (f + 1) g cap count = digits.foldl (fun cnt n =>
          if cap ≤ cnt then cnt
          else if isValidPlacement g r c n then csAux f (setCell g r c (some n)) cap cnt
          else cnt) count := by
        rw [csAux, hfe]
      have h2 : solutionsAux (f + 1) g = digits.flatMap fun n =>
          if isValidPlacement g r c n then solutionsAux f (setCell g r c (some n)) else [] := by
        rw [solutionsAux, hfe]
      rw [h1, h2]
      have hlen : (digits.flatMap fun n =>
          if isValidPlacement g r c n then solutionsAux f (setCell g r c (some n)) else []).length
          = (digits.map fun n =>
              (if isValidPlacement g r c n then solutionsAux f (setCell g r c (some n))
               else []).length).sum := by
        rw [List.flatMap, List.length_flatten, List.map_map]
        rfl
      rw [hlen]
      apply foldl_min_accum cap _ _ ?_ ?_ digits count (Nat.le_of_lt hcount)
      · intro cnt n hlt
        simp only [if_neg (by omega : ¬ cap ≤ cnt)]
        by_cases hv : isValidPlacement g r c n = true
        · rw [if_pos hv, if_pos hv]
          exact ih (setCell g r c (some n)) cap cnt hlt
        · rw [if_neg hv, if_neg hv]
          simp only [List.length_nil, Nat.add_zero]
          omega
      · intro cnt n hge
        rw [if_pos hge]


/-! The bridge between the search's notion of completion and the
specification's notion of a solved extension. -/

theorem isSolved_iff (s : Grid) :
    isSolved s = true ↔ ∀ r c, r < 9 → c < 9 →
      ∃ n, cellAt s r c = some (some n) ∧ isValidPlacement s r c n = true := by
  rw [isSolved]
  simp only [List.all_eq_true, List.mem_range]
  constructor
  · intro h r c hr hc
    have := h r hr c hc
    rcases hcell : cellAt s r c with _ | cell
    · rw [hcell] at this
      cases this
    · rcases cell with _ | n
      · rw [hcell] at this
        cases this
      · rw [hcell] at this
        exact ⟨n, rfl, this⟩
  · intro h r hr c hc
    obtain ⟨n, hcell, hval⟩ := h r c hr hc
    rw [hcell]
    exact hval

theorem digitsOk_iff (s : Grid) :
    digitsOkB s = true ↔ ∀ r c n, r < 9 → c < 9 →
      cellAt s r c = some (some n) → n ∈ digits := by
  rw [digitsOkB]
  simp only [List.all_eq_true, List.mem_range]
  constructor
  · intro h r c n hr hc hcell
    have := h r hr c hc
    rw [hcell] at this
    simpa using this
  · intro h r hr c hc
    rcases hcell : cellAt s r c with _ | cell
    · rfl
    · rcases cell with _ | n
      · rfl
      · simpa using h r c n hr hc hcell

theorem getViolations_nil_iff (g : Grid) :
    getViolations g = [] ↔ ∀ r c n, r < 9 → c < 9 →
      cellAt g r c = some (some n) → isValidPlacement g r c n = true := by
  rw [getViolations]
  rw [List.flatMap_eq_nil_iff]
  constructor
  · intro h r c n hr hc hcell
    have hr9 := h r (List.mem_range.mpr hr)
    rw [List.map_eq_nil_iff, List.filter_eq_nil_iff] at hr9
    have := hr9 c (List.mem_range.mpr hc)
    rw [hcell] at this
    simpa using this
  · intro h r hrm
    rw [List.map_eq_nil_iff, List.filter_eq_nil_iff]
    intro c hcm
    rcases hcell : cellAt g r c with _ | cell
    · simp
    · rcases cell with _ | n
      · simp
      · have := h r c n (List.mem_range.mp hrm) (List.mem_range.mp hcm) hcell
        simp [this]

/-- For a well-formed grid with digits 1..9 and no violations among its
filled cells, the completions the search reaches are exactly the solved
extensions of the specification. -/
theorem codeSolution_iff_solvedExtension {g : Grid} (hwf : wellFormedB g = true)
    (hdig : digitsOkB g = true) (hviol : getViolations g = []) (s : Grid) :
    CodeSolution g s ↔ SolvedExtension g s := by
  constructor
  · rintro ⟨hwfs, hsub, hemp⟩
    have hfill : ∀ r c, r < 9 → c < 9 → ∃ n, cellAt s r c = some (some n) ∧
        (n ∈ digits) ∧
        (cellAt g r c = some (some n) ∨
          (cellAt g r c = some none ∧ isValidPlacement s r c n = true)) := by
      intro r c hr hc
      obtain ⟨cell, hcell⟩ := cellAt_isSome_of_wf hwf hr hc
      rcases cell with _ | n
      · obtain ⟨n, hnd, hsn, hsv⟩ := hemp r c hr hc hcell
        exact ⟨n, hsn, hnd, Or.inr ⟨hcell, hsv⟩⟩
      · exact ⟨n, hsub r c n hr hc hcell, (digitsOk_iff g).mp hdig r c n hr hc hcell,
          Or.inl hcell⟩
    refine ⟨hwfs, hsub, ?_, ?_⟩
    · rw [digitsOk_iff]
      intro r c n hr hc hcell
      obtain ⟨m, hsm, hmd, -⟩ := hfill r c hr hc
      rw [hcell] at hsm
      simp only [Option.some.injEq] at hsm
      exact hsm ▸ hmd
    · rw [isSolved_iff]
      intro r c hr hc
      obtain ⟨n, hsn, hnd, hcase⟩ := hfill r c hr hc
      refine ⟨n, hsn, ?_⟩
      rcases hcase with hgn | ⟨-, hsv⟩
      · -- a cell already filled in g: check its validity in s peer by peer
        rw [validPlacement_chr s r c n hr hc]
        intro x y hx hy hne hpeer hsxy
        obtain ⟨m, hsm, hmd, hcase2⟩ := hfill x y hx hy
        rw [hsxy] at hsm
        simp only [Option.some.injEq] at hsm
        subst hsm
        rcases hcase2 with hgm | ⟨-, hsv2⟩
        · have hgval := (getViolations_nil_iff g).mp hviol r c n hr hc hgn
          rw [validPlacement_chr g r c n hr hc] at hgval
          exact hgval x y hx hy hne hpeer hgm
        · rw [validPlacement_chr s x y n hx hy] at hsv2
          exact hsv2 r c hr hc (fun hp => hne hp.symm) (peer_symm hpeer)
            (hsub r c n hr hc hgn)
      · exact hsv
  · rintro ⟨hwfs, hsub, hdigs, hsol⟩
    refine ⟨hwfs, hsub, ?_⟩
    intro r c hr hc hcell
    obtain ⟨n, hsn, hsv⟩ := (isSolved_iff s).mp hsol r c hr hc
    exact ⟨n, (digitsOk_iff s).mp hdigs r c n hr hc hsn, hsn, hsv⟩


theorem nodup_length_one {α : Type} {l : List α} (P : α → Prop)
    (hnd : l.Nodup) (hmem : ∀ s, s ∈ l ↔ P s) : l.length = 1 ↔ ∃! s, P s := by
  constructor
  · intro h
    obtain ⟨a, rfl⟩ := List.length_eq_one.mp h
    exact ⟨a, (hmem a).mp (List.mem_singleton.mpr rfl),
      fun y hy => List.mem_singleton.mp ((hmem y).mpr hy)⟩
  · rintro ⟨a, hPa, huniq⟩
    have ha : a ∈ l := (hmem a).mpr hPa
    have hall : ∀ x ∈ l, x = a := fun x hx => huniq x ((hmem x).mp hx)
    match l, ha, hnd with
    | [x], _, _ => rfl
    | x :: y :: t, _, hnd =>
      have hx : x = a := hall x (by simp)
      have hy : y = a := hall y (by simp)
      have : x ≠ y := by
        have := List.nodup_cons.mp hnd
        simp only [List.mem_cons] at this
        exact fun h => this.1 (Or.inl h)
      exact absurd (hx.trans hy.symm) this

theorem nodup_length_zero {α : Type} {l : List α} (P : α → Prop)
    (hmem : ∀ s, s ∈ l ↔ P s) : l.length = 0 ↔ ¬ ∃ s, P s := by
  rw [List.length_eq_zero]
  constructor
  · rintro rfl ⟨s, hs⟩
    exact absurd ((hmem s).mpr hs) (List.not_mem_nil s)
  · intro h
    rw [List.eq_nil_iff_forall_not_mem]
    intro x hx
    exact h ⟨x, (hmem x).mp hx⟩

theorem nodup_length_two {α : Type} {l : List α} (P : α → Prop)
    (hnd : l.Nodup) (hmem : ∀ s, s ∈ l ↔ P s) :
    2 ≤ l.length ↔ ∃ s t, P s ∧ P t ∧ s ≠ t := by
  constructor
  · intro h
    match l, h, hnd with
    | x :: y :: t, _, hnd =>
      have hxy : x ≠ y := by
        have := List.nodup_cons.mp hnd
        simp only [List.mem_cons] at this
        exact fun h => this.1 (Or.inl h)
      exact ⟨x, y, (hmem x).mp (by simp), (hmem y).mp (by simp), hxy⟩
  · rintro ⟨s, t, hs, ht, hst⟩
    have hsl : s ∈ l := (hmem s).mpr hs
    have htl : t ∈ l := (hmem t).mpr ht
    match l, hsl, htl with
    | [x], hsl, htl =>
      exact absurd ((List.mem_singleton.mp hsl).trans (List.mem_singleton.mp htl).symm) hst
    | x :: y :: rest, _, _ => simp

/-- Claim C4 (amended): `countSolutions(g, 2)` always returns a value in
[0, 2]; and for a well-formed grid whose filled cells hold digits 1..9
and are mutually consistent (no violations), the value classifies the
grid: 1 means a unique solved extension, 0 means no solved extension,
2 means at least two distinct solved extensions exist (the search stops
at the cap and never computes the exact count above it).  The
consistency hypothesis is needed: `countSolutions` never re-checks the
cells already filled, see the counterexample on the all-fives grid. -/
theorem countSolutions_two_classifies (g : Grid) :
    countSolutions g 2 ≤ 2 ∧
    (wellFormedB g = true → digitsOkB g = true → getViolations g = [] →
      ((countSolutions g 2 = 1 ↔ ∃! s, SolvedExtension g s) ∧
       (countSolutions g 2 = 0 ↔ ¬ ∃ s, SolvedExtension g s) ∧
       (countSolutions g 2 = 2 ↔
         ∃ s t, SolvedExtension g s ∧ SolvedExtension g t ∧ s ≠ t))) := by
  have hmin : countSolutions g 2 = min (solutionsAux 81 g).length 2 := by
    rw [countSolutions, cloneGrid_eq, csAux_min 81 g 2 0 (by omega)]
    simp
  refine ⟨by rw [hmin]; omega, fun hwf hdig hviol => ?_⟩
  have hfuel : emptyCount g ≤ 81 := emptyCount_le g
  have hmem : ∀ s, s ∈ solutionsAux 81 g ↔ SolvedExtension g s := fun s =>
    (solutionsAux_mem 81 g hwf hfuel s).trans
      (codeSolution_iff_solvedExtension hwf hdig hviol s)
  have hnd := solutionsAux_nodup 81 g hwf hfuel
  refine ⟨?_, ?_, ?_⟩
  · rw [hmin, show (min (solutionsAux 81 g).length 2 = 1 ↔
      (solutionsAux 81 g).length = 1) from by omega]
    exact nodup_length_one (SolvedExtension g) hnd hmem
  · rw [hmin, show (min (solutionsAux 81 g).length 2 = 0 ↔
      (solutionsAux 81 g).length = 0) from by omega]
    exact nodup_length_zero (SolvedExtension g) hmem
  · rw [hmin, show (min (solutionsAux 81 g).length 2 = 2 ↔
      2 ≤ (solutionsAux 81 g).length) from by omega]
    exact nodup_length_two (SolvedExtension g) hnd hmem


set_option maxRecDepth 8000 in
/-- Witness for claim C4 at a concrete input: the canonical solved grid
with one cell cleared is consistent and `countSolutions` returns 1, so it
has exactly one solved extension. -/
theorem countSolutions_two_classifies_witness :
    countSolutions oneHole 2 = 1 ∧ getViolations oneHole = [] ∧
    (∃! s, SolvedExtension oneHole s) := by
  have h := (countSolutions_two_classifies oneHole).2 (by decide) (by decide) (by decide)
  exact ⟨by decide, by decide, h.1.mp (by decide)⟩

set_option maxRecDepth 8000 in
/-- Counterexample to claim C4 as stated: on the all-fives grid (a
type-correct `Grid`), `countSolutions(·, 2)` returns 1 although the grid
has no solution at all — the backtracking never re-checks cells that were
already filled, so the fully-filled invalid grid itself is counted. -/
theorem countSolutions_two_misclassifies :
    countSolutions allFives 2 = 1 ∧ ¬ ∃ s, SolvedExtension allFives s := by
  refine ⟨by decide, ?_⟩
  rintro ⟨s, hwfs, hsub, hdigs, hsol⟩
  have h00 : cellAt s 0 0 = some (some 5) := hsub 0 0 5 (by omega) (by omega) (by decide)
  have h01 : cellAt s 0 1 = some (some 5) := hsub 0 1 5 (by omega) (by omega) (by decide)
  obtain ⟨n, hsn, hsv⟩ := (isSolved_iff s).mp hsol 0 0 (by omega) (by omega)
  rw [h00] at hsn
  simp only [Option.some.injEq] at hsn
  subst hsn
  rw [validPlacement_chr s 0 0 5 (by omega) (by omega)] at hsv
  exact hsv 0 1 (by omega) (by omega) (by decide) (Or.inl rfl) h01

/-- Claim C8 (amended): `solve` returns the "unsolvable" sentinel `null`
on a grid that has an empty cell with no valid candidates — in
particular on a grid where two identical digits in one row starve an
empty cell.  (A mere same-row duplicate is not enough: on a fully filled
grid with a duplicate, `solve` returns the grid itself, see the
counterexample.) -/
theorem solve_none_of_starved_cell (g : Grid) (hwf : wellFormedB g = true)
    (_hdup : ∃ row c1 c2 d, row < 9 ∧ c1 < 9 ∧ c2 < 9 ∧ c1 ≠ c2 ∧
      cellAt g row c1 = some (some d) ∧ cellAt g row c2 = some (some d))
    (r c : Nat) (hr : r < 9) (hc : c < 9)
    (hempty : cellAt g r c = some none) (hdead : getCandidates g r c = []) :
    solve g = none := by
  rw [solve, cloneGrid_eq, solveAux_eq_head]
  suffices h : solutionsAux 81 g = [] by rw [h]; rfl
  rw [List.eq_nil_iff_forall_not_mem]
  intro s hs
  obtain ⟨hwfs, hsub, hemp⟩ := (solutionsAux_mem 81 g hwf (emptyCount_le g) s).mp hs
  obtain ⟨n, hnd, hsn, hsv⟩ := hemp r c hr hc hempty
  have hgval : isValidPlacement g r c n = true := isValidPlacement_antitone hsub hr hc hsv
  have hmem : n ∈ getCandidates g r c := mem_getCandidates.mpr ⟨hempty, hnd, hgval⟩
  rw [hdead] at hmem
  cases hmem

set_option maxRecDepth 8000 in
/-- Witness for claim C8: the canonical grid with a duplicated 5 in row 0
(cells (0,1) and (0,4)) and cell (1,1) cleared; the duplicate starves
(1,1) of candidates and `solve` returns the sentinel. -/
theorem solve_none_of_starved_cell_witness :
    cellAt dupDead 0 1 = some (some 5) ∧ cellAt dupDead 0 4 = some (some 5) ∧
    getCandidates dupDead 1 1 = [] ∧ solve dupDead = none :=
  ⟨by decide, by decide, by decide,
   solve_none_of_starved_cell dupDead (by decide)
     ⟨0, 1, 4, 5, by omega, by omega, by omega, by omega, by decide, by decide⟩
     1 1 (by omega) (by omega) (by decide) (by decide)⟩

set_option maxRecDepth 8000 in
/-- Counterexample to claim C8 as stated: `rowDupFull` holds the digit 2
at both (0,0) and (0,1) of row 0, yet `solve` returns a (fully filled)
grid rather than the `null` sentinel — `solveInPlace` never re-checks
cells that are already filled. -/
theorem solve_completes_despite_row_duplicate :
    cellAt rowDupFull 0 0 = some (some 2) ∧ cellAt rowDupFull 0 1 = some (some 2) ∧
    firstEmpty rowDupFull = none ∧ solve rowDupFull = some rowDupFull := by
  refine ⟨by decide, by decide, by decide, ?_⟩
  rw [solve, cloneGrid_eq, solveAux_eq_head]
  rw [show solutionsAux 81 rowDupFull = [rowDupFull] from by decide]
  rfl


/-! The depth-1 lookahead step of `requiresLookahead`. -/

theorem getCandidates_ne_nil_cell {g : Grid} {r c : Nat}
    (h : getCandidates g r c ≠ []) : cellAt g r c = some none := by
  by_cases hc : cellAt g r c = some none
  · exact hc
  · rw [getCandidates, if_pos (by simpa using hc)] at h
    exact absurd rfl h

theorem contraLoop_succ_of_dead (f : Nat) (g g2 : Grid) (p : Bool)
    (hstep : testStep g = (g2, p)) (hdead : hasZeroCandidateCell g2 = true) :
    contraLoop (f + 1) g = true := by
  rw [contraLoop, hstep, hdead]
  simp

/-- Claim C3 (amended): in the depth-1 lookahead step, for an empty cell
whose candidate list is exactly `[a, b]`, an inference is drawn iff at
least one of the two candidates leads to a contradiction under basic
deduction: if `a` contradicts, the code forces `b` *without testing `b`*
(so when both candidates contradict, `b` is still forced); only when `a`
does not contradict and `b` does is `a` forced; when neither
contradicts, nothing is inferred from the cell. -/
theorem cellDecision_spec (g : Grid) (r c a b : Nat)
    (hcands : getCandidates g r c = [a, b]) :
    (cellDecision g r c = none ↔
      leadsToContradiction g r c a = false ∧ leadsToContradiction g r c b = false) ∧
    (leadsToContradiction g r c a = true → cellDecision g r c = some b) ∧
    (leadsToContradiction g r c a = false → leadsToContradiction g r c b = true →
      cellDecision g r c = some a) := by
  have hcell : cellAt g r c = some none := getCandidates_ne_nil_cell (by rw [hcands]; simp)
  have hcd : cellDecision g r c = decideTwo g r c [a, b] := by
    rw [cellDecision, if_pos hcell, hcands]
  rw [hcd, decideTwo]
  rcases ha : leadsToContradiction g r c a with _ | _ <;>
    rcases hb : leadsToContradiction g r c b with _ | _ <;> simp

set_option maxRecDepth 8000 in
theorem lookGrid_contra8 : leadsToContradiction lookGrid 0 0 8 = true := by
  rw [leadsToContradiction,
    show setCell (cloneGrid lookGrid) 0 0 (some 8) = lookA0 from by decide,
    show (82 : Nat) = 81 + 1 from rfl]
  exact contraLoop_succ_of_dead 81 lookA0 lookA1 true (by decide) (by decide)

set_option maxRecDepth 8000 in
theorem lookGrid_contra9 : leadsToContradiction lookGrid 0 0 9 = true := by
  rw [leadsToContradiction,
    show setCell (cloneGrid lookGrid) 0 0 (some 9) = lookB0 from by decide,
    show (82 : Nat) = 81 + 1 from rfl]
  exact contraLoop_succ_of_dead 81 lookB0 lookB1 true (by decide) (by decide)

set_option maxRecDepth 4000 in
theorem lookGrid_decision : cellDecision lookGrid 0 0 = some 9 := by
  rw [cellDecision, if_pos (show cellAt lookGrid 0 0 = some none from by decide),
    show getCandidates lookGrid 0 0 = [8, 9] from by decide,
    decideTwo, lookGrid_contra8]
  simp

/-- Witness for the amended claim C3, applying the characterisation at
the concrete working grid `lookGrid` and its two-candidate cell (0,0). -/
theorem cellDecision_spec_witness :
    getCandidates lookGrid 0 0 = [8, 9] ∧ cellDecision lookGrid 0 0 = some 9 := by
  have h := cellDecision_spec lookGrid 0 0 8 9 (by decide)
  exact ⟨by decide, h.2.1 lookGrid_contra8⟩

set_option maxRecDepth 8000 in
/-- Counterexample to claim C3 as stated: on the stable working grid
`lookGrid` (no naked or hidden single applies, so `requiresLookahead`
reaches the lookahead step with exactly this grid), the first empty cell
(0,0) has the two candidates 8 and 9 and *both* lead to a contradiction
under basic deduction, yet the step still draws an inference: it forces
9 into the working grid.  The claim asserts no inference is drawn in
this case. -/
theorem lookahead_infers_when_both_candidates_contradict :
    getCandidates lookGrid 0 0 = [8, 9] ∧
    leadsToContradiction lookGrid 0 0 8 = true ∧
    leadsToContradiction lookGrid 0 0 9 = true ∧
    cellDecision lookGrid 0 0 = some 9 ∧
    lookaheadPass lookGrid = (setCell lookGrid 0 0 (some 9), true) ∧
    applyNakedSingles lookGrid = (lookGrid, false) ∧
    applyHiddenSingles lookGrid = (lookGrid, false) := by
  refine ⟨by decide, lookGrid_contra8, lookGrid_contra9, lookGrid_decision, ?_, by decide, ?_⟩
  · rw [lookaheadPass, show scanPairs = (0, 0) :: scanPairs.tail from by decide,
      List.findSome?_cons_of_isSome]
    · show applyFirst lookGrid ((cellDecision lookGrid 0 0).map fun v => (((0, 0) : Nat × Nat), v)) = _
      rw [lookGrid_decision]
      rfl
    · show ((cellDecision lookGrid 0 0).map fun v => (((0, 0) : Nat × Nat), v)).isSome
      rw [lookGrid_decision]
      rfl
  · rw [applyHiddenSingles,
      show hiddenRows (lookGrid, false) = (lookGrid, false) from by decide,
      show hiddenCols (lookGrid, false) = (lookGrid, false) from by decide,
      show hiddenBoxes (lookGrid, false) = (lookGrid, false) from by decide]

end Sudoku
